import Mathlib

/-!
Shallow embedding of the png-me chunk codec (src/chunk.rs, src/chunk_type.rs).

Bytes are modelled as `Nat` values (< 256 where it matters), `u32` values as
`Nat` with explicit `% 2 ^ 32` at the points where the Rust code truncates.
Rust slice indexing `&value[a..b]`, which panics when `b > value.len()`, is
modelled by explicit bounds tests returning a distinguished `panicked` result.
-/

namespace PngMe

/-- `u32::from_be_bytes` on a list of byte values (most significant first). -/
def u32fromBE (l : List Nat) : Nat :=
  l.foldl (fun a b => a * 256 + b) 0

/-- `u32::from_le_bytes` on a list of byte values (least significant first). -/
def u32fromLE (l : List Nat) : Nat :=
  l.foldr (fun b a => b + 256 * a) 0

/-- `u32::to_be_bytes`: 4 bytes, most significant first. -/
def u32toBE (n : Nat) : List Nat :=
  [n >>> 24 % 256, n >>> 16 % 256, n >>> 8 % 256, n % 256]

/-- `u32::to_le_bytes`: 4 bytes, least significant first. -/
def u32toLE (n : Nat) : List Nat :=
  [n % 256, n >>> 8 % 256, n >>> 16 % 256, n >>> 24 % 256]

/-- Reflected form of the CRC-32 ISO-HDLC polynomial 0x04C11DB7. -/
def crcPoly : Nat := 0xEDB88320

/-- One bit step of the reflected CRC-32 algorithm. -/
def crc32Bit (crc : Nat) : Nat :=
  if crc % 2 = 1 then (crc >>> 1) ^^^ crcPoly else crc >>> 1

/-- One byte step of the reflected CRC-32 algorithm. -/
def crc32Byte (crc b : Nat) : Nat :=
  crc32Bit^[8] (crc ^^^ b)

/-- CRC-32 with the ISO-HDLC parameters (init `0xFFFFFFFF`, reflected
input/output, final xor `0xFFFFFFFF`): the checksum computed by the
`crc` crate's `CRC_32_ISO_HDLC` used in `Chunk::new`. -/
def crc32 (data : List Nat) : Nat :=
  (data.foldl crc32Byte 0xFFFFFFFF) ^^^ 0xFFFFFFFF

/-- `ChunkType` (src/chunk_type.rs): a 4-byte tag packed into one u32. -/
structure ChunkType where
  chunk_type : Nat
deriving DecidableEq

/-- `ChunkType::new`. -/
def ChunkType.new (value : Nat) : ChunkType :=
  ⟨value⟩

/-- `ChunkType::bytes`: `self.chunk_type.to_le_bytes()`. -/
def ChunkType.bytes (ct : ChunkType) : List Nat :=
  u32toLE ct.chunk_type

/-- The packing loop shared by `TryFrom<[u8; 4]>` and `FromStr`:
`result |= (byte as u32) << (index * 8)`, accumulated over the bytes. -/
def packLoop : List Nat → Nat → Nat → Nat
  | [], _, acc => acc
  | b :: rest, i, acc => packLoop rest (i + 1) (acc ||| (b <<< (i * 8)))

/-- `ChunkType::try_from(value: [u8; 4])`: the length test is against
`TYPE_LEN = 4`; packing is unchecked. -/
def ChunkType.tryFromBytes (value : List Nat) : Except String ChunkType :=
  if value.length ≠ 4 then
    .error "incorrect number of bytes in from_str parameter"
  else
    .ok (ChunkType.new (packLoop value 0 0))

/-- `u8::is_ascii_alphabetic`. -/
def isAsciiAlphabetic (b : Nat) : Bool :=
  (decide (65 ≤ b) && decide (b ≤ 90)) || (decide (97 ≤ b) && decide (b ≤ 122))

/-- The loop of `ChunkType::from_str`: rejects the first non-alphabetic
byte, otherwise packs like `packLoop`. -/
def fromStrLoop : List Nat → Nat → Nat → Except String Nat
  | [], _, acc => .ok acc
  | b :: rest, i, acc =>
    if isAsciiAlphabetic b then fromStrLoop rest (i + 1) (acc ||| (b <<< (i * 8)))
    else .error "non-alphabetic character"

/-- `ChunkType::from_str` over the byte sequence of the input string. -/
def ChunkType.fromStr (s : List Nat) : Except String ChunkType :=
  if s.length ≠ 4 then .error "incorrect number of bytes in from_str parameter"
  else (fromStrLoop s 0 0).map ChunkType.new

/-- `ChunkType::is_critical`: `(self.bytes()[0] >> 5) & 1 == 0`. -/
def ChunkType.is_critical (ct : ChunkType) : Bool :=
  decide ((ct.bytes.getD 0 0 >>> 5) &&& 1 = 0)

/-- `ChunkType::is_public`: `(self.bytes()[1] >> 5) & 1 == 0`. -/
def ChunkType.is_public (ct : ChunkType) : Bool :=
  decide ((ct.bytes.getD 1 0 >>> 5) &&& 1 = 0)

/-- `ChunkType::is_reserved_bit_valid`: `(self.bytes()[2] >> 5) & 1 == 0`. -/
def ChunkType.is_reserved_bit_valid (ct : ChunkType) : Bool :=
  decide ((ct.bytes.getD 2 0 >>> 5) &&& 1 = 0)

/-- `ChunkType::is_safe_to_copy`: `(self.bytes()[3] >> 5) & 1 == 1`. -/
def ChunkType.is_safe_to_copy (ct : ChunkType) : Bool :=
  decide ((ct.bytes.getD 3 0 >>> 5) &&& 1 = 1)

/-- `ChunkType::is_valid`: delegates to `is_reserved_bit_valid`. -/
def ChunkType.is_valid (ct : ChunkType) : Bool :=
  ct.is_reserved_bit_valid

/-- `Chunk` (src/chunk.rs). -/
structure Chunk where
  length : Nat
  chunk_type : ChunkType
  chunk_data : List Nat
  crc : Nat
deriving DecidableEq

/-- `Chunk::new`: length is `data.len() as u32` (truncating cast), the crc
is the ISO-HDLC CRC-32 of the type bytes followed by the data. -/
def Chunk.new (chunk_type : ChunkType) (data : List Nat) : Chunk :=
  { length := data.length % 2 ^ 32
    chunk_type := chunk_type
    chunk_data := data
    crc := crc32 (chunk_type.bytes ++ data) }

/-- Outcome of `Chunk::try_from(&[u8])`.  `panicked` stands for the panic a
Rust slice expression `&value[a..b]` raises when `b > value.len()`;
`failed` is `Err("Given invalid byte array")`. -/
inductive DecodeResult where
  | panicked : DecodeResult
  | failed : DecodeResult
  | ok : Chunk → DecodeResult
deriving DecidableEq

/-- `Chunk::try_from(value: &[u8])`: reads the big-endian length from
`[0,4)`, the little-endian type word from `[4,8)`, `length` payload bytes
from `[8, 8+length)` and the big-endian crc from `[8+length, 12+length)`,
each slice panicking when it overruns the buffer; then rebuilds the chunk
with `Chunk::new` and accepts iff the declared length and crc match it. -/
def Chunk.tryFrom (value : List Nat) : DecodeResult :=
  if 4 ≤ value.length then
    let length := u32fromBE (value.take 4)
    if 8 ≤ value.length then
      let ctVal := u32fromLE ((value.drop 4).take 4)
      if 8 + length ≤ value.length then
        let chunk_data := (value.drop 8).take length
        if 12 + length ≤ value.length then
          let crc := u32fromBE ((value.drop (8 + length)).take 4)
          let chunk := Chunk.new (ChunkType.new ctVal) chunk_data
          if length = chunk.length ∧ crc = chunk.crc then .ok chunk else .failed
        else .panicked
      else .panicked
    else .panicked
  else .panicked

/-- `Chunk::as_bytes`: big-endian length, raw type bytes, payload,
big-endian crc. -/
def Chunk.asBytes (c : Chunk) : List Nat :=
  u32toBE c.length ++ c.chunk_type.bytes ++ c.chunk_data ++ u32toBE c.crc

/-- `u8::is_utf8_continuation`-style test: a byte in `0x80..=0xBF`. -/
def isCont (b : Nat) : Bool :=
  decide (128 ≤ b) && decide (b ≤ 191)

/-- Validity condition of `str::from_utf8` (standard UTF-8 well-formedness:
no overlong forms, no surrogates, maximum scalar 0x10FFFF). -/
def validUtf8 : List Nat → Bool
  | [] => true
  | b :: rest =>
    if b ≤ 127 then validUtf8 rest
    else if 194 ≤ b ∧ b ≤ 223 then
      match rest with
      | c1 :: rest2 => isCont c1 && validUtf8 rest2
      | [] => false
    else if b = 224 then
      match rest with
      | c1 :: c2 :: rest2 =>
        decide (160 ≤ c1) && decide (c1 ≤ 191) && isCont c2 && validUtf8 rest2
      | _ => false
    else if 225 ≤ b ∧ b ≤ 236 then
      match rest with
      | c1 :: c2 :: rest2 => isCont c1 && isCont c2 && validUtf8 rest2
      | _ => false
    else if b = 237 then
      match rest with
      | c1 :: c2 :: rest2 =>
        decide (128 ≤ c1) && decide (c1 ≤ 159) && isCont c2 && validUtf8 rest2
      | _ => false
    else if 238 ≤ b ∧ b ≤ 239 then
      match rest with
      | c1 :: c2 :: rest2 => isCont c1 && isCont c2 && validUtf8 rest2
      | _ => false
    else if b = 240 then
      match rest with
      | c1 :: c2 :: c3 :: rest2 =>
        decide (144 ≤ c1) && decide (c1 ≤ 191) && isCont c2 && isCont c3 && validUtf8 rest2
      | _ => false
    else if 241 ≤ b ∧ b ≤ 243 then
      match rest with
      | c1 :: c2 :: c3 :: rest2 => isCont c1 && isCont c2 && isCont c3 && validUtf8 rest2
      | _ => false
    else if b = 244 then
      match rest with
      | c1 :: c2 :: c3 :: rest2 =>
        decide (128 ≤ c1) && decide (c1 ≤ 143) && isCont c2 && isCont c3 && validUtf8 rest2
      | _ => false
    else false

/-- The error type of `Chunk::data_as_string` (spec: `TextError`). -/
inductive TextError where
  | invalidEncoding : TextError
deriving DecidableEq

/-- `Chunk::data_as_string`: `str::from_utf8` surfaced as a result value;
on success the text is the payload's byte sequence. -/
def Chunk.dataAsString (c : Chunk) : Except TextError (List Nat) :=
  if validUtf8 c.chunk_data then .ok c.chunk_data else .error .invalidEncoding

/-- `Display for ChunkType`: each byte rendered as the char of its value. -/
def ChunkType.display (ct : ChunkType) : String :=
  String.mk (ct.bytes.map Char.ofNat)

/-- `Display for Chunk`: concatenates length, type tag, payload text and
crc.  The payload goes through `str::from_utf8(..).unwrap()`, so the
render panics (modelled as `none`) when the payload is not valid UTF-8;
the payload text itself is abstracted as its byte-wise char rendering. -/
def Chunk.display (c : Chunk) : Option String :=
  if validUtf8 c.chunk_data then
    some (toString c.length ++ c.chunk_type.display
      ++ String.mk (c.chunk_data.map Char.ofNat) ++ toString c.crc)
  else none

/-- Byte sequence of a string literal (ASCII contents only in this file). -/
def strBytes (s : String) : List Nat :=
  s.toList.map Char.toNat

/-- Flip bit `j` of the byte at position `k` of a byte list (used to state
the checksum-sensitivity property). -/
def flipBit (k j : Nat) (l : List Nat) : List Nat :=
  l.set k ((l.getD k 0) ^^^ (1 <<< j))

end PngMe

namespace PngMe

theorem list_len4 {α : Type} {l : List α} (h : l.length = 4) :
    ∃ a b c d, l = [a, b, c, d] := by
  rcases l with _ | ⟨a, _ | ⟨b, _ | ⟨c, _ | ⟨d, _ | ⟨e, t⟩⟩⟩⟩⟩
  · simp at h
  · simp at h
  · simp at h
  · simp at h
  · exact ⟨a, b, c, d, rfl⟩
  · simp at h

theorem lor_shiftLeft_eq_add {a k : Nat} (b : Nat) (ha : a < 2 ^ k) :
    a ||| b <<< k = a + b * 2 ^ k := by
  rw [Nat.shiftLeft_eq, Nat.lor_comm, Nat.mul_comm, ← Nat.mul_add_lt_is_or ha]
  ring

theorem packLoop_eq {b0 b1 b2 b3 : Nat} (h0 : b0 < 256) (h1 : b1 < 256)
    (h2 : b2 < 256) (_h3 : b3 < 256) :
    packLoop [b0, b1, b2, b3] 0 0
      = b0 + b1 * 2 ^ 8 + b2 * 2 ^ 16 + b3 * 2 ^ 24 := by
  simp only [packLoop]
  norm_num
  rw [lor_shiftLeft_eq_add b1 (by omega),
    lor_shiftLeft_eq_add b2 (by omega),
    lor_shiftLeft_eq_add b3 (by omega)]
  norm_num

theorem u32toBE_length (n : Nat) : (u32toBE n).length = 4 := rfl

theorem u32toLE_length (n : Nat) : (u32toLE n).length = 4 := rfl

theorem u32toBE_mem_lt (n : Nat) : ∀ b ∈ u32toBE n, b < 256 := by
  simp [u32toBE]
  omega

theorem u32toLE_mem_lt (n : Nat) : ∀ b ∈ u32toLE n, b < 256 := by
  simp [u32toLE]
  omega

theorem u32fromBE_toBE {n : Nat} (h : n < 2 ^ 32) : u32fromBE (u32toBE n) = n := by
  simp [u32fromBE, u32toBE, Nat.shiftRight_eq_div_pow]
  omega

theorem u32fromLE_toLE {n : Nat} (h : n < 2 ^ 32) : u32fromLE (u32toLE n) = n := by
  simp [u32fromLE, u32toLE, Nat.shiftRight_eq_div_pow]
  omega

theorem u32toLE_fromLE {b0 b1 b2 b3 : Nat} (h0 : b0 < 256) (h1 : b1 < 256)
    (h2 : b2 < 256) (h3 : b3 < 256) :
    u32toLE (u32fromLE [b0, b1, b2, b3]) = [b0, b1, b2, b3] := by
  simp [u32fromLE, u32toLE, Nat.shiftRight_eq_div_pow]
  refine ⟨?_, ?_, ?_, ?_⟩ <;> omega

theorem u32fromBE_lt {b0 b1 b2 b3 : Nat} (h0 : b0 < 256) (h1 : b1 < 256)
    (h2 : b2 < 256) (h3 : b3 < 256) :
    u32fromBE [b0, b1, b2, b3] < 2 ^ 32 := by
  simp [u32fromBE]
  omega

theorem u32fromLE_lt {b0 b1 b2 b3 : Nat} (h0 : b0 < 256) (h1 : b1 < 256)
    (h2 : b2 < 256) (h3 : b3 < 256) :
    u32fromLE [b0, b1, b2, b3] < 2 ^ 32 := by
  simp [u32fromLE]
  omega

theorem take_append_eq {α : Type} {l₁ : List α} (l₂ : List α) {n : Nat}
    (h : l₁.length = n) : (l₁ ++ l₂).take n = l₁ := by
  subst h
  exact List.take_left l₁ l₂

theorem drop_append_eq {α : Type} {l₁ : List α} (l₂ : List α) {n : Nat}
    (h : l₁.length = n) : (l₁ ++ l₂).drop n = l₂ := by
  subst h
  exact List.drop_left l₁ l₂

theorem crc32Bit_lt {c : Nat} (h : c < 2 ^ 32) : crc32Bit c < 2 ^ 32 := by
  unfold crc32Bit
  split
  · exact Nat.xor_lt_two_pow (by rw [Nat.shiftRight_eq_div_pow]; omega)
      (by norm_num [crcPoly])
  · rw [Nat.shiftRight_eq_div_pow]
    omega

theorem crc32Bit_iter_lt (n : Nat) {c : Nat} (h : c < 2 ^ 32) :
    crc32Bit^[n] c < 2 ^ 32 := by
  induction n generalizing c with
  | zero => simpa using h
  | succ n ih =>
    rw [Function.iterate_succ_apply]
    exact ih (crc32Bit_lt h)

theorem crc32Byte_lt {c b : Nat} (hc : c < 2 ^ 32) (hb : b < 256) :
    crc32Byte c b < 2 ^ 32 := by
  unfold crc32Byte
  exact crc32Bit_iter_lt 8 (Nat.xor_lt_two_pow hc (by omega))

theorem crc32_fold_lt (l : List Nat) (hb : ∀ b ∈ l, b < 256) {c : Nat}
    (hc : c < 2 ^ 32) : l.foldl crc32Byte c < 2 ^ 32 := by
  induction l generalizing c with
  | nil => simpa using hc
  | cons x xs ih =>
    simp only [List.foldl_cons]
    exact ih (fun b hm => hb b (List.mem_cons_of_mem x hm))
      (crc32Byte_lt hc (hb x (List.mem_cons_self x xs)))

theorem crc32_lt (l : List Nat) (hb : ∀ b ∈ l, b < 256) : crc32 l < 2 ^ 32 := by
  unfold crc32
  exact Nat.xor_lt_two_pow (crc32_fold_lt l hb (by norm_num)) (by norm_num)

end PngMe

namespace PngMe

/-- For a buffer long enough for all four fields, `Chunk::try_from` reduces
to the crc comparison: it accepts iff the embedded big-endian checksum
equals the CRC-32 recomputed over the embedded type bytes and payload. -/
theorem tryFrom_spec (value : List Nat) (hb : ∀ b ∈ value, b < 256)
    (h : 12 + u32fromBE (value.take 4) ≤ value.length) :
    Chunk.tryFrom value =
      if u32fromBE ((value.drop (8 + u32fromBE (value.take 4))).take 4)
          = crc32 ((ChunkType.new (u32fromLE ((value.drop 4).take 4))).bytes
              ++ (value.drop 8).take (u32fromBE (value.take 4))) then
        DecodeResult.ok (Chunk.new (ChunkType.new (u32fromLE ((value.drop 4).take 4)))
          ((value.drop 8).take (u32fromBE (value.take 4))))
      else DecodeResult.failed := by
  have h4 : 4 ≤ value.length := by omega
  have htl : (value.take 4).length = 4 := by
    simp [List.length_take]
    omega
  obtain ⟨b0, b1, b2, b3, he⟩ := list_len4 htl
  have hsub : ∀ b ∈ value.take 4, b < 256 := fun b hm => hb b (List.take_subset 4 value hm)
  rw [he] at hsub
  have hlen : u32fromBE (value.take 4) < 2 ^ 32 := by
    rw [he]
    exact u32fromBE_lt (hsub b0 (by simp)) (hsub b1 (by simp)) (hsub b2 (by simp))
      (hsub b3 (by simp))
  have hchunk_len : (Chunk.new (ChunkType.new (u32fromLE ((value.drop 4).take 4)))
      ((value.drop 8).take (u32fromBE (value.take 4)))).length = u32fromBE (value.take 4) := by
    simp only [Chunk.new, List.length_take, List.length_drop]
    have : min (u32fromBE (value.take 4)) (value.length - 8) = u32fromBE (value.take 4) := by
      omega
    rw [this]
    omega
  have hcond : (u32fromBE (value.take 4) = (Chunk.new (ChunkType.new (u32fromLE ((value.drop 4).take 4)))
        ((value.drop 8).take (u32fromBE (value.take 4)))).length
      ∧ u32fromBE ((value.drop (8 + u32fromBE (value.take 4))).take 4)
        = (Chunk.new (ChunkType.new (u32fromLE ((value.drop 4).take 4)))
            ((value.drop 8).take (u32fromBE (value.take 4)))).crc)
      ↔ u32fromBE ((value.drop (8 + u32fromBE (value.take 4))).take 4)
          = crc32 ((ChunkType.new (u32fromLE ((value.drop 4).take 4))).bytes
              ++ (value.drop 8).take (u32fromBE (value.take 4))) := by
    rw [hchunk_len]
    exact ⟨fun hx => hx.2, fun hx => ⟨rfl, hx⟩⟩
  simp only [Chunk.tryFrom]
  rw [if_pos h4, if_pos (show 8 ≤ value.length by omega),
    if_pos (show 8 + u32fromBE (value.take 4) ≤ value.length by omega),
    if_pos (show 12 + u32fromBE (value.take 4) ≤ value.length by omega)]
  simp only [hcond]

end PngMe

namespace PngMe

/-- Decoding a well-formed record (any 4 type bytes, matching length and
crc fields) succeeds and yields the chunk rebuilt from the embedded tag
word and payload. -/
theorem tryFrom_record (t data : List Nat) (ht : t.length = 4)
    (htb : ∀ b ∈ t, b < 256) (hdb : ∀ b ∈ data, b < 256) (hd : data.length < 2 ^ 32) :
    Chunk.tryFrom (u32toBE data.length ++ t ++ data ++ u32toBE (crc32 (t ++ data)))
      = DecodeResult.ok (Chunk.new (ChunkType.new (u32fromLE t)) data) := by
  obtain ⟨t0, t1, t2, t3, hte⟩ := list_len4 ht
  subst hte
  have hb0 := htb t0 (by simp)
  have hb1 := htb t1 (by simp)
  have hb2 := htb t2 (by simp)
  have hb3 := htb t3 (by simp)
  have htbytes : (ChunkType.new (u32fromLE [t0, t1, t2, t3])).bytes = [t0, t1, t2, t3] :=
    u32toLE_fromLE hb0 hb1 hb2 hb3
  rw [show u32toBE data.length ++ [t0, t1, t2, t3] ++ data
        ++ u32toBE (crc32 ([t0, t1, t2, t3] ++ data))
      = u32toBE data.length ++ ([t0, t1, t2, t3]
        ++ (data ++ u32toBE (crc32 ([t0, t1, t2, t3] ++ data)))) by
    simp [List.append_assoc]]
  set C : List Nat := u32toBE (crc32 ([t0, t1, t2, t3] ++ data)) with hC
  set B : List Nat := u32toBE data.length ++ ([t0, t1, t2, t3] ++ (data ++ C)) with hB
  have hBlen : B.length = 12 + data.length := by
    rw [hB, hC]
    simp [List.length_append, u32toBE]
    omega
  have htake4 : B.take 4 = u32toBE data.length := take_append_eq _ (u32toBE_length _)
  have hfrom : u32fromBE (B.take 4) = data.length := by
    rw [htake4]
    exact u32fromBE_toBE hd
  have hdrop4 : B.drop 4 = [t0, t1, t2, t3] ++ (data ++ C) :=
    drop_append_eq _ (u32toBE_length _)
  have htag : (B.drop 4).take 4 = [t0, t1, t2, t3] := by
    rw [hdrop4]
    exact take_append_eq _ rfl
  have hdrop8 : B.drop 8 = data ++ C := by
    have h8 : B.drop 8 = (B.drop 4).drop 4 := by
      rw [List.drop_drop]
    rw [h8, hdrop4]
    exact drop_append_eq _ rfl
  have hdata : (B.drop 8).take data.length = data := by
    rw [hdrop8]
    exact take_append_eq _ rfl
  have hdropC : B.drop (8 + data.length) = C := by
    have h12 : B.drop (8 + data.length) = (B.drop 8).drop data.length := by
      rw [List.drop_drop]
    rw [h12, hdrop8]
    exact drop_append_eq _ rfl
  have hembC : (B.drop (8 + data.length)).take 4 = C := by
    rw [hdropC, hC]
    simp [u32toBE]
  have hembval : u32fromBE ((B.drop (8 + data.length)).take 4)
      = crc32 ([t0, t1, t2, t3] ++ data) := by
    rw [hembC, hC]
    refine u32fromBE_toBE (crc32_lt _ ?_)
    intro b hm
    simp only [List.mem_append] at hm
    rcases hm with hm | hm
    · simp at hm
      rcases hm with hm | hm | hm | hm <;> omega
    · exact hdb b hm
  have hbB : ∀ b ∈ B, b < 256 := by
    intro b hm
    rw [hB] at hm
    simp only [List.mem_append] at hm
    rcases hm with hm | hm | hm | hm
    · exact u32toBE_mem_lt _ b hm
    · simp at hm
      rcases hm with hm | hm | hm | hm <;> omega
    · exact hdb b hm
    · rw [hC] at hm
      exact u32toBE_mem_lt _ b hm
  have hlenB : 12 + u32fromBE (B.take 4) ≤ B.length := by
    rw [hfrom, hBlen]
  rw [tryFrom_spec B hbB hlenB, hfrom, htag, hdata, hembval, htbytes, if_pos rfl]

end PngMe

namespace PngMe

set_option maxRecDepth 2048 in
/-- `(b >> 5) & 1` queries, for bytes, agree with `Nat.testBit b 5`
(the `0x20` bit) in both polarities. -/
theorem bit5_query : ∀ b < 256,
    ((decide ((b >>> 5) &&& 1 = 0) = true ↔ Nat.testBit b 5 = false)
      ∧ (decide ((b >>> 5) &&& 1 = 1) = true ↔ Nat.testBit b 5 = true)) := by
  decide

/-- The packing loop of `ChunkType::from_str` succeeds exactly when every
byte is ASCII alphabetic. -/
theorem fromStrLoop_ok_iff (l : List Nat) (i acc : Nat) :
    (∃ v, fromStrLoop l i acc = Except.ok v) ↔ ∀ b ∈ l, isAsciiAlphabetic b = true := by
  induction l generalizing i acc with
  | nil => simp [fromStrLoop]
  | cons x xs ih =>
    simp only [fromStrLoop]
    by_cases hx : isAsciiAlphabetic x
    · simp [hx, ih]
    · simp [hx]

/-- When some byte is not alphabetic, the `from_str` loop reports the
non-alphabetic error. -/
theorem fromStrLoop_err (l : List Nat) (i acc : Nat)
    (h : ¬ ∀ b ∈ l, isAsciiAlphabetic b = true) :
    fromStrLoop l i acc = Except.error "non-alphabetic character" := by
  induction l generalizing i acc with
  | nil => simp at h
  | cons x xs ih =>
    simp only [fromStrLoop]
    by_cases hx : isAsciiAlphabetic x
    · rw [if_pos hx]
      refine ih _ _ ?_
      simp only [List.mem_cons] at h
      intro hall
      exact h (fun b hb => by
        rcases hb with hb | hb
        · rw [hb]; exact hx
        · exact hall b hb)
    · rw [if_neg hx]

/-- C1: every buffer shorter than `12 + declared length` (in particular
every buffer shorter than 12 bytes, whose truncated length prefix still
satisfies the bound) makes `Chunk::try_from` panic on an out-of-bounds
slice — the code returns no `Truncated` error, contradicting the spec. -/
theorem truncated_buffer_panics (value : List Nat)
    (h : value.length < 12 + u32fromBE (value.take 4)) :
    Chunk.tryFrom value = DecodeResult.panicked := by
  simp only [Chunk.tryFrom]
  split_ifs <;> first | rfl | (exfalso; omega)

/-- Witness for `truncated_buffer_panics`: the empty buffer panics. -/
theorem truncated_buffer_panics_witness :
    Chunk.tryFrom [] = DecodeResult.panicked :=
  truncated_buffer_panics [] (by decide)

/-- C6: `ChunkType::from_str` succeeds iff the input is exactly 4 bytes,
all ASCII alphabetic; it fails with the wrong-length error exactly when
the byte length differs from 4, and with the non-alphabetic error
otherwise. -/
theorem fromStr_spec (s : List Nat) :
    ((∃ ct, ChunkType.fromStr s = Except.ok ct)
        ↔ s.length = 4 ∧ ∀ b ∈ s, isAsciiAlphabetic b = true)
    ∧ (ChunkType.fromStr s = Except.error "incorrect number of bytes in from_str parameter"
        ↔ s.length ≠ 4)
    ∧ (ChunkType.fromStr s = Except.error "non-alphabetic character"
        ↔ s.length = 4 ∧ ¬ ∀ b ∈ s, isAsciiAlphabetic b = true) := by
  unfold ChunkType.fromStr
  by_cases hl : s.length = 4
  · rw [if_neg (by omega)]
    by_cases ha : ∀ b ∈ s, isAsciiAlphabetic b = true
    · obtain ⟨v, hv⟩ := (fromStrLoop_ok_iff s 0 0).mpr ha
      simp [hv, hl, Except.map]
      exact ha
    · simp [fromStrLoop_err s 0 0 ha, hl, ha, Except.map]
  · rw [if_pos hl]
    simp [hl]

/-- Witness for `fromStr_spec`: `from_str("Rus")` is a wrong-length
error. -/
theorem fromStr_spec_witness :
    ChunkType.fromStr (strBytes "Rus")
      = Except.error "incorrect number of bytes in from_str parameter" :=
  (fromStr_spec (strBytes "Rus")).2.1.mpr (by decide)

/-- C7: each bit-flag query reads the `0x20` bit of the corresponding
byte of the tag's byte decomposition with the stated polarity,
`is_valid` equals `is_reserved_bit_valid`, and the spec's concrete
cases for "RuSt", "ruSt", "RUSt", "Rust" and "RuST" all hold. -/
theorem flags_spec :
    (∀ ct : ChunkType,
        (ct.is_critical = true ↔ (ct.bytes.getD 0 0).testBit 5 = false)
      ∧ (ct.is_public = true ↔ (ct.bytes.getD 1 0).testBit 5 = false)
      ∧ (ct.is_reserved_bit_valid = true ↔ (ct.bytes.getD 2 0).testBit 5 = false)
      ∧ (ct.is_safe_to_copy = true ↔ (ct.bytes.getD 3 0).testBit 5 = true)
      ∧ ct.is_valid = ct.is_reserved_bit_valid)
    ∧ ((ChunkType.fromStr (strBytes "RuSt")).map ChunkType.is_critical = Except.ok true)
    ∧ ((ChunkType.fromStr (strBytes "RuSt")).map ChunkType.is_public = Except.ok false)
    ∧ ((ChunkType.fromStr (strBytes "RuSt")).map ChunkType.is_reserved_bit_valid = Except.ok true)
    ∧ ((ChunkType.fromStr (strBytes "RuSt")).map ChunkType.is_safe_to_copy = Except.ok true)
    ∧ ((ChunkType.fromStr (strBytes "RuSt")).map ChunkType.is_valid = Except.ok true)
    ∧ ((ChunkType.fromStr (strBytes "ruSt")).map ChunkType.is_critical = Except.ok false)
    ∧ ((ChunkType.fromStr (strBytes "RUSt")).map ChunkType.is_public = Except.ok true)
    ∧ ((ChunkType.fromStr (strBytes "Rust")).map ChunkType.is_reserved_bit_valid = Except.ok false)
    ∧ ((ChunkType.fromStr (strBytes "Rust")).map ChunkType.is_valid = Except.ok false)
    ∧ ((ChunkType.fromStr (strBytes "RuST")).map ChunkType.is_safe_to_copy = Except.ok false) := by
  refine ⟨?_, by rfl, by rfl, by rfl, by rfl, by rfl, by rfl, by rfl, by rfl, by rfl, by rfl⟩
  intro ct
  refine ⟨?_, ?_, ?_, ?_, rfl⟩
  · exact (bit5_query _ (Nat.mod_lt _ (by norm_num))).1
  · exact (bit5_query _ (Nat.mod_lt _ (by norm_num))).1
  · exact (bit5_query _ (Nat.mod_lt _ (by norm_num))).1
  · exact (bit5_query _ (Nat.mod_lt _ (by norm_num))).2

/-- Witness for `flags_spec` at the all-zero tag. -/
theorem flags_spec_witness :
    (ChunkType.new 0).is_valid = (ChunkType.new 0).is_reserved_bit_valid :=
  (flags_spec.1 (ChunkType.new 0)).2.2.2.2

/-- C8: raw-byte tag construction always succeeds on 4 bytes and
`bytes` inverts it: the packed 32-bit word unpacks to exactly the
input bytes. -/
theorem tag_bytes_roundtrip (b0 b1 b2 b3 : Nat) (h0 : b0 < 256) (h1 : b1 < 256)
    (h2 : b2 < 256) (h3 : b3 < 256) :
    (ChunkType.tryFromBytes [b0, b1, b2, b3]).map ChunkType.bytes
      = Except.ok [b0, b1, b2, b3] := by
  unfold ChunkType.tryFromBytes
  rw [if_neg (by simp)]
  have hsum : b0 + b1 * 2 ^ 8 + b2 * 2 ^ 16 + b3 * 2 ^ 24 = u32fromLE [b0, b1, b2, b3] := by
    simp [u32fromLE]
    ring
  simp only [Except.map]
  rw [packLoop_eq h0 h1 h2 h3, hsum]
  exact congrArg Except.ok (u32toLE_fromLE h0 h1 h2 h3)

/-- Witness for `tag_bytes_roundtrip` on non-alphabetic bytes. -/
theorem tag_bytes_roundtrip_witness :
    (ChunkType.tryFromBytes [0, 1, 255, 116]).map ChunkType.bytes
      = Except.ok [0, 1, 255, 116] :=
  tag_bytes_roundtrip 0 1 255 116 (by decide) (by decide) (by decide) (by decide)

/-- C10 (amended): `data_as_string` is total — `Ok` with the payload text
for valid UTF-8, the invalid-encoding error otherwise — but `Display`
returns normally iff the payload is valid UTF-8 (its `unwrap` panics,
modelled as `none`, otherwise). -/
theorem text_rendering_spec (c : Chunk) :
    (c.dataAsString = Except.ok c.chunk_data
        ∨ c.dataAsString = Except.error TextError.invalidEncoding)
    ∧ (validUtf8 c.chunk_data = false →
        c.dataAsString = Except.error TextError.invalidEncoding)
    ∧ ((∃ s, c.display = some s) ↔ validUtf8 c.chunk_data = true) := by
  unfold Chunk.dataAsString Chunk.display
  by_cases h : validUtf8 c.chunk_data
  · simp [h]
  · simp [h]

/-- Witness for `text_rendering_spec` on a non-UTF-8 payload. -/
theorem text_rendering_spec_witness :
    (Chunk.new (ChunkType.new 0) [255]).dataAsString
      = Except.error TextError.invalidEncoding :=
  (text_rendering_spec (Chunk.new (ChunkType.new 0) [255])).2.1 (by decide)

/-- C10 counterexample: a chunk whose payload is the single byte `0xFF`
(not valid UTF-8) makes the `Display` implementation panic (modelled as
`none`) instead of returning normally. -/
theorem display_panics_on_invalid_utf8 :
    (Chunk.new (ChunkType.new (u32fromLE (strBytes "RuSt"))) [255]).display = none := by
  rfl

end PngMe

namespace PngMe

/-- C2 (amended): for payloads shorter than `2^32` bytes, decoding the
encoding of `Chunk::new(tag, payload)` succeeds and returns the very same
chunk — identical length, type-tag bytes, payload and checksum — so
re-encoding it reproduces the original byte sequence exactly. -/
theorem encode_decode_roundtrip (v : Nat) (data : List Nat) (hv : v < 2 ^ 32)
    (hdb : ∀ b ∈ data, b < 256) (hd : data.length < 2 ^ 32) :
    Chunk.tryFrom (Chunk.new (ChunkType.new v) data).asBytes
      = DecodeResult.ok (Chunk.new (ChunkType.new v) data) := by
  have hlen : (Chunk.new (ChunkType.new v) data).length = data.length := Nat.mod_eq_of_lt hd
  have h1 : (Chunk.new (ChunkType.new v) data).asBytes
      = u32toBE data.length ++ u32toLE v ++ data ++ u32toBE (crc32 (u32toLE v ++ data)) := by
    unfold Chunk.asBytes
    rw [hlen]
    rfl
  rw [h1, tryFrom_record (u32toLE v) data (u32toLE_length v) (u32toLE_mem_lt v) hdb hd,
    u32fromLE_toLE hv]

/-- Witness for `encode_decode_roundtrip` on the "RuSt" tag word with a
3-byte payload. -/
theorem encode_decode_roundtrip_witness :
    Chunk.tryFrom (Chunk.new (ChunkType.new 1951626578) [1, 2, 3]).asBytes
      = DecodeResult.ok (Chunk.new (ChunkType.new 1951626578) [1, 2, 3]) :=
  encode_decode_roundtrip 1951626578 [1, 2, 3] (by decide) (by decide) (by decide)

/-- C4 (amended): chunks built by `Chunk::new` always carry
`checksum = CRC32(type bytes ++ payload)` and `length = payload.len() as
u32`, i.e. the byte count reduced mod `2^32` — equal to the byte count
whenever it fits in 32 bits; chunks accepted by `Chunk::try_from`
satisfy the same equations (they are built by `Chunk::new`), and chunks
are never mutated afterwards. -/
theorem chunk_invariant :
    (∀ (ct : ChunkType) (data : List Nat),
        (Chunk.new ct data).crc = crc32 (ct.bytes ++ data)
      ∧ (Chunk.new ct data).length = data.length % 2 ^ 32
      ∧ (data.length < 2 ^ 32 → (Chunk.new ct data).length = data.length))
    ∧ (∀ (value : List Nat) (c : Chunk), Chunk.tryFrom value = DecodeResult.ok c →
        c.crc = crc32 (c.chunk_type.bytes ++ c.chunk_data)
      ∧ c.length = c.chunk_data.length % 2 ^ 32) := by
  constructor
  · intro ct data
    refine ⟨rfl, rfl, fun h => ?_⟩
    show data.length % 2 ^ 32 = data.length
    omega
  · intro value c h
    simp only [Chunk.tryFrom] at h
    split_ifs at h
    · injection h with h'
      subst h'
      exact ⟨rfl, rfl⟩

/-- Witness for `chunk_invariant` on a 1-byte payload. -/
theorem chunk_invariant_witness :
    (Chunk.new (ChunkType.new 0) [7]).length = 1 :=
  (chunk_invariant.1 (ChunkType.new 0) [7]).2.2 (by decide)

/-- C4 counterexample: for a `2^32`-byte payload the stored length field
(`data.len() as u32`, which wraps to 0) differs from the payload's byte
count, refuting the unconditional `length == payload.len()` invariant. -/
theorem length_field_truncates :
    (Chunk.new (ChunkType.new 0) (List.replicate (2 ^ 32) 0)).length
      ≠ (List.replicate (2 ^ 32) 0).length := by
  intro hc
  have h1 : ∀ (ct : ChunkType) (data : List Nat),
      (Chunk.new ct data).length = data.length % 2 ^ 32 := fun _ _ => rfl
  rw [h1, List.length_replicate] at hc
  omega

/-- C9: decoding never re-validates the type tag: any 4 tag bytes —
alphabetic or not — decode fine when length and crc are consistent, and
concretely the record with non-alphabetic tag "1234" (whose
`is_valid()` is false) is accepted. -/
theorem decode_ignores_tag_validity :
    (∀ (t data : List Nat), t.length = 4 → (∀ b ∈ t, b < 256) →
        (∀ b ∈ data, b < 256) → data.length < 2 ^ 32 →
        Chunk.tryFrom (u32toBE data.length ++ t ++ data ++ u32toBE (crc32 (t ++ data)))
          = DecodeResult.ok (Chunk.new (ChunkType.new (u32fromLE t)) data))
    ∧ (Chunk.tryFrom (u32toBE 0 ++ [49, 50, 51, 52] ++ [] ++ u32toBE (crc32 [49, 50, 51, 52]))
          = DecodeResult.ok (Chunk.new (ChunkType.new (u32fromLE [49, 50, 51, 52])) [])
        ∧ (ChunkType.new (u32fromLE [49, 50, 51, 52])).is_valid = false
        ∧ ¬ ∀ b ∈ [49, 50, 51, 52], isAsciiAlphabetic b = true) := by
  refine ⟨fun t data ht htb hdb hd => tryFrom_record t data ht htb hdb hd,
    by decide, by decide, by decide⟩

/-- Witness for `decode_ignores_tag_validity` on the all-zero tag. -/
theorem decode_ignores_tag_validity_witness :
    Chunk.tryFrom (u32toBE [7].length ++ [0, 0, 0, 0] ++ [7]
        ++ u32toBE (crc32 ([0, 0, 0, 0] ++ [7])))
      = DecodeResult.ok (Chunk.new (ChunkType.new (u32fromLE [0, 0, 0, 0])) [7]) :=
  decode_ignores_tag_validity.1 [0, 0, 0, 0] [7] (by decide) (by decide) (by decide) (by decide)

set_option maxRecDepth 100000 in
/-- C3 (amended): the "RuSt" tag with the spec's secret-message payload —
which is 42 bytes, not 44 — yields checksum `2882656334` and length
`42`. -/
theorem known_vector :
    (ChunkType.fromStr (strBytes "RuSt")).map
        (fun ct => (Chunk.new ct (strBytes "This is where your secret message will be!")).crc)
      = Except.ok 2882656334
    ∧ (ChunkType.fromStr (strBytes "RuSt")).map
        (fun ct => (Chunk.new ct (strBytes "This is where your secret message will be!")).length)
      = Except.ok 42
    ∧ (strBytes "This is where your secret message will be!").length = 42 :=
  ⟨rfl, rfl, rfl⟩

set_option maxRecDepth 100000 in
/-- C3 counterexample: the known-vector chunk's length is 42 (the payload
has 42 bytes), not 44 as the claim states. -/
theorem known_vector_length_not_44 :
    (ChunkType.fromStr (strBytes "RuSt")).map
        (fun ct => (Chunk.new ct (strBytes "This is where your secret message will be!")).length)
      ≠ Except.ok 44 := by
  intro h
  rw [show (ChunkType.fromStr (strBytes "RuSt")).map
      (fun ct => (Chunk.new ct (strBytes "This is where your secret message will be!")).length)
      = Except.ok 42 from rfl] at h
  exact absurd (Except.ok.inj h) (by decide)

end PngMe

namespace PngMe

/-- Flipping one bit (xor with a power of two) always changes a number. -/
theorem xor_two_pow_ne (x j : Nat) : x ^^^ 2 ^ j ≠ x := by
  intro he
  have h2 : x ^^^ (x ^^^ 2 ^ j) = x ^^^ x := congrArg (x ^^^ ·) he
  rw [← Nat.xor_assoc, Nat.xor_self, Nat.zero_xor] at h2
  exact absurd h2 (Nat.pos_iff_ne_zero.mp (Nat.two_pow_pos j))

/-- Decoding a record whose length field matches the payload, with an
arbitrary 4-byte trailing field, reduces to comparing that field (read
big-endian) against the recomputed CRC-32. -/
theorem tryFrom_record_if (t data C : List Nat) (ht : t.length = 4) (hC : C.length = 4)
    (htb : ∀ b ∈ t, b < 256) (hdb : ∀ b ∈ data, b < 256) (hCb : ∀ b ∈ C, b < 256)
    (hd : data.length < 2 ^ 32) :
    Chunk.tryFrom (u32toBE data.length ++ t ++ data ++ C)
      = if u32fromBE C = crc32 (t ++ data)
        then DecodeResult.ok (Chunk.new (ChunkType.new (u32fromLE t)) data)
        else DecodeResult.failed := by
  obtain ⟨t0, t1, t2, t3, hte⟩ := list_len4 ht
  subst hte
  have hb0 := htb t0 (by simp)
  have hb1 := htb t1 (by simp)
  have hb2 := htb t2 (by simp)
  have hb3 := htb t3 (by simp)
  have htbytes : (ChunkType.new (u32fromLE [t0, t1, t2, t3])).bytes = [t0, t1, t2, t3] :=
    u32toLE_fromLE hb0 hb1 hb2 hb3
  rw [show u32toBE data.length ++ [t0, t1, t2, t3] ++ data ++ C
      = u32toBE data.length ++ ([t0, t1, t2, t3] ++ (data ++ C)) by
    simp [List.append_assoc]]
  set B : List Nat := u32toBE data.length ++ ([t0, t1, t2, t3] ++ (data ++ C)) with hB
  have hBlen : B.length = 12 + data.length := by
    rw [hB]
    simp [List.length_append, u32toBE]
    omega
  have htake4 : B.take 4 = u32toBE data.length := take_append_eq _ (u32toBE_length _)
  have hfrom : u32fromBE (B.take 4) = data.length := by
    rw [htake4]
    exact u32fromBE_toBE hd
  have hdrop4 : B.drop 4 = [t0, t1, t2, t3] ++ (data ++ C) :=
    drop_append_eq _ (u32toBE_length _)
  have htag : (B.drop 4).take 4 = [t0, t1, t2, t3] := by
    rw [hdrop4]
    exact take_append_eq _ rfl
  have hdrop8 : B.drop 8 = data ++ C := by
    have h8 : B.drop 8 = (B.drop 4).drop 4 := by
      rw [List.drop_drop]
    rw [h8, hdrop4]
    exact drop_append_eq _ rfl
  have hdata : (B.drop 8).take data.length = data := by
    rw [hdrop8]
    exact take_append_eq _ rfl
  have hdropC : B.drop (8 + data.length) = C := by
    have h12 : B.drop (8 + data.length) = (B.drop 8).drop data.length := by
      rw [List.drop_drop]
    rw [h12, hdrop8]
    exact drop_append_eq _ rfl
  have hembC : (B.drop (8 + data.length)).take 4 = C := by
    rw [hdropC, ← hC]
    exact List.take_length C
  have hbB : ∀ b ∈ B, b < 256 := by
    intro b hm
    rw [hB] at hm
    simp only [List.mem_append] at hm
    rcases hm with hm | hm | hm | hm
    · exact u32toBE_mem_lt _ b hm
    · simp at hm
      rcases hm with hm | hm | hm | hm <;> omega
    · exact hdb b hm
    · exact hCb b hm
  have hlenB : 12 + u32fromBE (B.take 4) ≤ B.length := by
    rw [hfrom, hBlen]
  rw [tryFrom_spec B hbB hlenB, hfrom, htag, hdata, hembC, htbytes]

/-- Flipping any single bit of the checksum field of a well-formed record
makes decoding fail. -/
theorem flip_crc_fails (t data : List Nat) (k j : Nat) (ht : t.length = 4)
    (htb : ∀ b ∈ t, b < 256) (hdb : ∀ b ∈ data, b < 256) (hd : data.length < 2 ^ 32)
    (hk : k < 4) (hj : j < 8) :
    Chunk.tryFrom (u32toBE data.length ++ t ++ data
        ++ flipBit k j (u32toBE (crc32 (t ++ data)))) = DecodeResult.failed := by
  have hmem : ∀ b ∈ t ++ data, b < 256 := by
    intro b hm
    rcases List.mem_append.mp hm with hm | hm
    · exact htb b hm
    · exact hdb b hm
  have hR : crc32 (t ++ data) < 2 ^ 32 := crc32_lt _ hmem
  obtain ⟨a0, a1, a2, a3, hCe⟩ := list_len4 (u32toBE_length (crc32 (t ++ data)))
  have ha : ∀ b ∈ u32toBE (crc32 (t ++ data)), b < 256 := u32toBE_mem_lt _
  rw [hCe] at ha
  have ha0 : a0 < 256 := ha a0 (by simp)
  have ha1 : a1 < 256 := ha a1 (by simp)
  have ha2 : a2 < 256 := ha a2 (by simp)
  have ha3 : a3 < 256 := ha a3 (by simp)
  have hRval : u32fromBE [a0, a1, a2, a3] = crc32 (t ++ data) := by
    rw [← hCe]
    exact u32fromBE_toBE hR
  have h2j : (1 : Nat) <<< j = 2 ^ j := by
    rw [Nat.shiftLeft_eq, Nat.one_mul]
  have h2jlt : (2 : Nat) ^ j < 256 := by
    calc (2 : Nat) ^ j < 2 ^ 8 := Nat.pow_lt_pow_right (by norm_num) hj
    _ = 256 := by norm_num
  rw [hCe]
  interval_cases k
  · rw [show flipBit 0 j [a0, a1, a2, a3] = [a0 ^^^ 2 ^ j, a1, a2, a3] by
      simp [flipBit, h2j]]
    rw [tryFrom_record_if t data _ ht (by simp) htb hdb (by
      intro b hm
      simp at hm
      rcases hm with hm | hm | hm | hm
      · rw [hm]
        exact Nat.xor_lt_two_pow (x := a0) (n := 8) (by omega) (by omega)
      · omega
      · omega
      · omega) hd]
    rw [if_neg]
    intro heq
    have hRval2 := hRval
    simp only [u32fromBE, List.foldl] at heq hRval2
    have hax : a0 ^^^ 2 ^ j = a0 := by omega
    exact xor_two_pow_ne a0 j hax
  · rw [show flipBit 1 j [a0, a1, a2, a3] = [a0, a1 ^^^ 2 ^ j, a2, a3] by
      simp [flipBit, h2j]]
    rw [tryFrom_record_if t data _ ht (by simp) htb hdb (by
      intro b hm
      simp at hm
      rcases hm with hm | hm | hm | hm
      · omega
      · rw [hm]
        exact Nat.xor_lt_two_pow (x := a1) (n := 8) (by omega) (by omega)
      · omega
      · omega) hd]
    rw [if_neg]
    intro heq
    have hRval2 := hRval
    simp only [u32fromBE, List.foldl] at heq hRval2
    have hax : a1 ^^^ 2 ^ j = a1 := by omega
    exact xor_two_pow_ne a1 j hax
  · rw [show flipBit 2 j [a0, a1, a2, a3] = [a0, a1, a2 ^^^ 2 ^ j, a3] by
      simp [flipBit, h2j]]
    rw [tryFrom_record_if t data _ ht (by simp) htb hdb (by
      intro b hm
      simp at hm
      rcases hm with hm | hm | hm | hm
      · omega
      · omega
      · rw [hm]
        exact Nat.xor_lt_two_pow (x := a2) (n := 8) (by omega) (by omega)
      · omega) hd]
    rw [if_neg]
    intro heq
    have hRval2 := hRval
    simp only [u32fromBE, List.foldl] at heq hRval2
    have hax : a2 ^^^ 2 ^ j = a2 := by omega
    exact xor_two_pow_ne a2 j hax
  · rw [show flipBit 3 j [a0, a1, a2, a3] = [a0, a1, a2, a3 ^^^ 2 ^ j] by
      simp [flipBit, h2j]]
    rw [tryFrom_record_if t data _ ht (by simp) htb hdb (by
      intro b hm
      simp at hm
      rcases hm with hm | hm | hm | hm
      · omega
      · omega
      · omega
      · rw [hm]
        exact Nat.xor_lt_two_pow (x := a3) (n := 8) (by omega) (by omega)) hd]
    rw [if_neg]
    intro heq
    have hRval2 := hRval
    simp only [u32fromBE, List.foldl] at heq hRval2
    have hax : a3 ^^^ 2 ^ j = a3 := by omega
    exact xor_two_pow_ne a3 j hax

end PngMe

namespace PngMe

/-- Decoding a record with declared length 0 but a longer actual payload
reads the crc field out of the payload's first 4 bytes; when that word
differs from the CRC-32 of the tag alone, decoding fails. -/
theorem tryFrom_zero_len (t data C : List Nat) (ht : t.length = 4) (hC : C.length = 4)
    (htb : ∀ b ∈ t, b < 256) (hdb : ∀ b ∈ data, b < 256) (hCb : ∀ b ∈ C, b < 256)
    (hcrc : u32fromBE ((data ++ C).take 4) ≠ crc32 t) :
    Chunk.tryFrom (u32toBE 0 ++ t ++ data ++ C) = DecodeResult.failed := by
  obtain ⟨t0, t1, t2, t3, hte⟩ := list_len4 ht
  subst hte
  have hb0 := htb t0 (by simp)
  have hb1 := htb t1 (by simp)
  have hb2 := htb t2 (by simp)
  have hb3 := htb t3 (by simp)
  have htbytes : (ChunkType.new (u32fromLE [t0, t1, t2, t3])).bytes = [t0, t1, t2, t3] :=
    u32toLE_fromLE hb0 hb1 hb2 hb3
  rw [show u32toBE 0 ++ [t0, t1, t2, t3] ++ data ++ C
      = u32toBE 0 ++ ([t0, t1, t2, t3] ++ (data ++ C)) by
    simp [List.append_assoc]]
  set B : List Nat := u32toBE 0 ++ ([t0, t1, t2, t3] ++ (data ++ C)) with hB
  have htake4 : B.take 4 = u32toBE 0 := take_append_eq _ (u32toBE_length _)
  have hfrom : u32fromBE (B.take 4) = 0 := by
    rw [htake4]
    exact u32fromBE_toBE (by norm_num)
  have hBlen : B.length = 12 + data.length := by
    rw [hB]
    simp [List.length_append, u32toBE]
    omega
  have hdrop4 : B.drop 4 = [t0, t1, t2, t3] ++ (data ++ C) :=
    drop_append_eq _ (u32toBE_length _)
  have htag : (B.drop 4).take 4 = [t0, t1, t2, t3] := by
    rw [hdrop4]
    exact take_append_eq _ rfl
  have hdrop8 : B.drop 8 = data ++ C := by
    have h8 : B.drop 8 = (B.drop 4).drop 4 := by
      rw [List.drop_drop]
    rw [h8, hdrop4]
    exact drop_append_eq _ rfl
  have hdata : (B.drop 8).take 0 = ([] : List Nat) := List.take_zero _
  have hemb : (B.drop (8 + 0)).take 4 = (data ++ C).take 4 := by
    rw [Nat.add_zero, hdrop8]
  have hbB : ∀ b ∈ B, b < 256 := by
    intro b hm
    rw [hB] at hm
    simp only [List.mem_append] at hm
    rcases hm with hm | hm | hm | hm
    · exact u32toBE_mem_lt _ b hm
    · simp at hm
      rcases hm with hm | hm | hm | hm <;> omega
    · exact hdb b hm
    · exact hCb b hm
  have hlenB : 12 + u32fromBE (B.take 4) ≤ B.length := by
    rw [hfrom, hBlen]
    omega
  rw [tryFrom_spec B hbB hlenB, hfrom, htag, hdata, hemb, htbytes, List.append_nil,
    if_neg hcrc]

/-- C2 counterexample: for the `2^32`-byte zero payload, the length field
written by `as_bytes` wraps to 0, so decoding the encoding fails instead
of returning the original chunk. -/
theorem roundtrip_fails_at_2pow32 :
    Chunk.tryFrom (Chunk.new (ChunkType.new (u32fromLE (strBytes "RuSt")))
        (List.replicate (2 ^ 32) 0)).asBytes = DecodeResult.failed := by
  have hlen : ∀ (ct : ChunkType) (data : List Nat),
      (Chunk.new ct data).length = data.length % 2 ^ 32 := fun _ _ => rfl
  have hlen0 : (Chunk.new (ChunkType.new (u32fromLE (strBytes "RuSt")))
      (List.replicate (2 ^ 32) 0)).length = 0 := by
    rw [hlen, List.length_replicate, Nat.mod_self]
  have hAs : ∀ c : Chunk, c.asBytes
      = u32toBE c.length ++ c.chunk_type.bytes ++ c.chunk_data ++ u32toBE c.crc :=
    fun _ => rfl
  have hct : ∀ (ct : ChunkType) (data : List Nat),
      (Chunk.new ct data).chunk_type = ct := fun _ _ => rfl
  have hcd : ∀ (ct : ChunkType) (data : List Nat),
      (Chunk.new ct data).chunk_data = data := fun _ _ => rfl
  have hbytes : ∀ v : Nat, (ChunkType.new v).bytes = u32toLE v := fun _ => rfl
  rw [hAs, hlen0, hct, hcd, hbytes]
  refine tryFrom_zero_len (u32toLE (u32fromLE (strBytes "RuSt")))
    (List.replicate (2 ^ 32) 0) _ (u32toLE_length _) (u32toBE_length _)
    (u32toLE_mem_lt _) ?_ (u32toBE_mem_lt _) ?_
  · intro b hm
    rw [List.eq_of_mem_replicate hm]
    omega
  · have htk : (List.replicate (2 ^ 32) (0 : Nat)
        ++ u32toBE (Chunk.new (ChunkType.new (u32fromLE (strBytes "RuSt")))
            (List.replicate (2 ^ 32) 0)).crc).take 4 = [0, 0, 0, 0] := by
      rw [List.take_append_eq_append_take, List.take_replicate, List.length_replicate]
      norm_num
      rfl
    rw [htk]
    decide

end PngMe

namespace PngMe

/-- C5: for buffers long enough for all fields, decoding accepts iff the
embedded big-endian checksum equals the CRC-32 recomputed over the
embedded type bytes and payload, failing otherwise (the code's single
decode error, spec's `ChecksumMismatch`); flipping any single bit of the
checksum field of a valid encoded record makes decoding fail. -/
theorem checksum_gate :
    (∀ value : List Nat, (∀ b ∈ value, b < 256) →
        12 + u32fromBE (value.take 4) ≤ value.length →
        (((∃ c, Chunk.tryFrom value = DecodeResult.ok c)
            ↔ u32fromBE ((value.drop (8 + u32fromBE (value.take 4))).take 4)
              = crc32 ((ChunkType.new (u32fromLE ((value.drop 4).take 4))).bytes
                  ++ (value.drop 8).take (u32fromBE (value.take 4))))
          ∧ (u32fromBE ((value.drop (8 + u32fromBE (value.take 4))).take 4)
              ≠ crc32 ((ChunkType.new (u32fromLE ((value.drop 4).take 4))).bytes
                  ++ (value.drop 8).take (u32fromBE (value.take 4)))
            → Chunk.tryFrom value = DecodeResult.failed)))
    ∧ (∀ (t data : List Nat) (k j : Nat), t.length = 4 → (∀ b ∈ t, b < 256) →
        (∀ b ∈ data, b < 256) → data.length < 2 ^ 32 → k < 4 → j < 8 →
        Chunk.tryFrom (u32toBE data.length ++ t ++ data
            ++ flipBit k j (u32toBE (crc32 (t ++ data)))) = DecodeResult.failed) := by
  constructor
  · intro value hb h
    rw [tryFrom_spec value hb h]
    by_cases hc : u32fromBE ((value.drop (8 + u32fromBE (value.take 4))).take 4)
        = crc32 ((ChunkType.new (u32fromLE ((value.drop 4).take 4))).bytes
            ++ (value.drop 8).take (u32fromBE (value.take 4)))
    · simp [hc]
    · simp [hc]
  · intro t data k j ht htb hdb hd hk hj
    exact flip_crc_fails t data k j ht htb hdb hd hk hj

set_option maxRecDepth 20000 in
/-- Witness for `checksum_gate`: a concrete flipped-bit record fails and
a concrete intact record decodes. -/
theorem checksum_gate_witness :
    Chunk.tryFrom (u32toBE [9].length ++ [65, 66, 67, 68] ++ [9]
        ++ flipBit 0 0 (u32toBE (crc32 ([65, 66, 67, 68] ++ [9])))) = DecodeResult.failed
    ∧ (∃ c, Chunk.tryFrom ([0, 0, 0, 1] ++ [65, 66, 67, 68] ++ [9]
        ++ u32toBE (crc32 ([65, 66, 67, 68] ++ [9]))) = DecodeResult.ok c) :=
  ⟨checksum_gate.2 [65, 66, 67, 68] [9] 0 0 (by decide) (by decide) (by decide)
      (by decide) (by decide) (by decide),
    (checksum_gate.1 ([0, 0, 0, 1] ++ [65, 66, 67, 68] ++ [9]
        ++ u32toBE (crc32 ([65, 66, 67, 68] ++ [9]))) (by decide) (by decide)).1.mpr
      (by decide)⟩

end PngMe
